import Mathlib

/-!
# Verification of sourcebit-target-next (src/index.js)

A shallow embedding of the data-transformation core of the plugin:
JavaScript/JSON values are modelled by an inductive type `JVal`,
lodash helpers (`_.get`, `_.trim`, `_.assign`, `_.find`, `_.filter`,
`_.reduce`) by executable Lean functions, and the plugin functions
(`interpolatePagePath`, `reducePropsMap`, `reducePages`,
`reduceAndTransformData`, `SourcebitDataClient.getData`,
`getStaticPaths`, `getPropsFromCMSDataForPagePath`, the websocket
watcher and the cache-file write of `transform`) by definitions that
mirror the source line by line.
-/

namespace Sourcebit

/-- JavaScript values as they occur in this plugin: `undef` models
JavaScript `undefined` (e.g. the result of `_.find` with no match, or
a missing object key), the rest are the JSON constructors. -/
inductive JVal where
  | undef : JVal
  | null : JVal
  | bool : Bool → JVal
  | num : Int → JVal
  | str : String → JVal
  | arr : List JVal → JVal
  | obj : List (String × JVal) → JVal

/-- JavaScript truthiness: `undefined`, `null`, `false`, `0` and the
empty string are falsy; arrays and objects are always truthy. -/
def truthy : JVal → Bool
  | JVal.undef => false
  | JVal.null => false
  | JVal.bool b => b
  | JVal.num n => n != 0
  | JVal.str s => s != ""
  | JVal.arr _ => true
  | JVal.obj _ => true

/-- First binding of a key in an object's field list (JavaScript objects
have unique keys, so first = only). -/
def jlookup (fields : List (String × JVal)) (k : String) : Option JVal :=
  (fields.find? (fun p => p.1 = k)).map (fun p => p.2)

/-- One step of lodash `_.get`: property access `v[k]` — object key
lookup, numeric index into an array, `undefined` otherwise. -/
def jgetKey : JVal → String → JVal
  | JVal.obj fields, k => (jlookup fields k).getD JVal.undef
  | JVal.arr xs, k =>
      match k.toNat? with
      | some i => (xs.get? i).getD JVal.undef
      | none => JVal.undef
  | _, _ => JVal.undef

/-- Split a character list at every dot: the segments of a dotted
field path, as in lodash's path parsing of `a.b.c`. -/
def splitDotAux (acc : List Char) : List Char → List String
  | [] => [String.mk acc.reverse]
  | c :: rest =>
      if c = '.' then String.mk acc.reverse :: splitDotAux [] rest
      else splitDotAux (c :: acc) rest

/-- lodash `_.get(page, p1)` for a dotted field path: split on dots and
walk the object. -/
def jget (v : JVal) (path : String) : JVal :=
  (splitDotAux [] path.data).foldl jgetKey v

mutual

/-- lodash string coercion (`baseToString`, used by `_.trim`):
`undefined`/`null` become `""`, arrays join their elements with commas
(JavaScript `Array.prototype.join(',')`), plain objects print as in
JavaScript. -/
def jtoString : JVal → String
  | JVal.undef => ""
  | JVal.null => ""
  | JVal.bool true => "true"
  | JVal.bool false => "false"
  | JVal.num n => toString n
  | JVal.str s => s
  | JVal.arr xs => jtoStringList xs
  | JVal.obj _ => "[object Object]"

/-- Comma-join of the stringified elements of an array. -/
def jtoStringList : List JVal → String
  | [] => ""
  | [x] => jtoString x
  | x :: rest => jtoString x ++ "," ++ jtoStringList rest

end

/-- lodash `_.trim(s, '/')` on the character list: strip leading and
trailing slashes. -/
def trimSlashes (cs : List Char) : List Char :=
  ((cs.dropWhile (fun c => c = '/')).reverse.dropWhile (fun c => c = '/')).reverse

/-- The error thrown by `interpolatePagePath` (line 104 of the source):
it names the offending field and carries the inspected page object. -/
structure MissingFieldError where
  field : String
  page : JVal

/-- A template decomposes into literal characters and `\x7b...\x7d`
placeholders, exactly as the global regex `/\x7b([\s\S]+?)\x7d/g`
of line 101 tokenizes it. -/
inductive Chunk where
  | lit : Char → Chunk
  | ph : String → Chunk
deriving DecidableEq

/-- One-pass scan implementing the match positions of the non-greedy
global regex `/\x7b([\s\S]+?)\x7d/g`: outside a match (`state = none`)
an opening brace starts a tentative placeholder; inside
(`state = some content`, content reversed) a closing brace after at
least one content character ends the placeholder, and if the input ends
without a closing brace the tentative characters were never part of a
match and are literal. -/
def templateScan : Option (List Char) → List Char → List Chunk
  | none, [] => []
  | none, c :: rest =>
      if c = '\x7b' then templateScan (some []) rest
      else Chunk.lit c :: templateScan none rest
  | some content, [] => ('\x7b' :: content.reverse).map Chunk.lit
  | some content, c :: rest =>
      if c = '\x7d' then
        if content.isEmpty then templateScan (some ['\x7d']) rest
        else Chunk.ph (String.mk content.reverse) :: templateScan none rest
      else templateScan (some (c :: content)) rest

/-- Tokenization of a template into literals and placeholders. -/
def templateChunks (cs : List Char) : List Chunk :=
  templateScan none cs

/-- The field paths of a chunk list, in order. -/
def chunkFields (chunks : List Chunk) : List String :=
  chunks.filterMap (fun ch =>
    match ch with
    | Chunk.ph f => some f
    | Chunk.lit _ => none)

/-- The dotted field paths referenced by the template's placeholders,
in match order. -/
def placeholders (cs : List Char) : List String :=
  chunkFields (templateChunks cs)

/-- The literal (non-placeholder) characters of the template. -/
def litChars (chunks : List Chunk) : List Char :=
  chunks.filterMap (fun ch =>
    match ch with
    | Chunk.lit c => some c
    | Chunk.ph _ => none)

/-- The replace callback of lines 101–107 applied across the chunks:
each placeholder's dotted path is resolved with `_.get`; a falsy value
throws the `MissingFieldError`, a truthy one is coerced to a string and
has surrounding slashes trimmed before substitution. -/
def renderChunksE (page : JVal) : List Chunk → Except MissingFieldError (List Char)
  | [] => Except.ok []
  | Chunk.lit c :: rest =>
      match renderChunksE page rest with
      | Except.ok out => Except.ok (c :: out)
      | Except.error e => Except.error e
  | Chunk.ph f :: rest =>
      let fieldValue := jget page f
      if truthy fieldValue then
        match renderChunksE page rest with
        | Except.ok out => Except.ok (trimSlashes (jtoString fieldValue).data ++ out)
        | Except.error e => Except.error e
      else Except.error ⟨f, page⟩

/-- The successful substitution result (what `renderChunksE` returns
when every placeholder resolves to a truthy value). -/
def renderOk (page : JVal) (chunks : List Chunk) : List Char :=
  chunks.flatMap (fun ch =>
    match ch with
    | Chunk.lit c => [c]
    | Chunk.ph f => trimSlashes (jtoString (jget page f)).data)

/-- Lines 109–111: prepend a slash when the substituted result does not
already start with one. -/
def finalizePath (cs : List Char) : String :=
  String.mk (if cs.head? = some '/' then cs else '/' :: cs)

/-- The function `interpolatePagePath(pathTemplate, page)` (lines 100–114): replace
every `\x7b...\x7d` placeholder via the callback, then ensure a leading
slash; the callback's throw on a missing/falsy field is modelled by
`Except.error`. -/
def interpolatePagePath (pathTemplate : String) (page : JVal) :
    Except MissingFieldError String :=
  match renderChunksE page (templateChunks pathTemplate.data) with
  | Except.error e => Except.error e
  | Except.ok cs => Except.ok (finalizePath cs)

/-- JavaScript property assignment `o[k] = v` on an object's field
list: an existing key keeps its position and gets the new value, a new
key is appended. This is the single-key step underlying both
`_.assign` and object-literal spread. -/
def objSet : List (String × JVal) → String → JVal → List (String × JVal)
  | [], k, v => [(k, v)]
  | p :: rest, k, v =>
      if p.1 = k then (k, v) :: rest else p :: objSet rest k v

/-- Copy every binding of `src` onto `base` in order, overriding
same-named keys: the effect of `_.assign(base, src)` and of spreading
`src` into an object literal that already holds `base`. -/
def assignFields (base : List (String × JVal)) (src : List (String × JVal)) :
    List (String × JVal) :=
  src.foldl (fun acc p => objSet acc p.1 p.2) base

/-- The binding of a key that wins after all of `src` has been
assigned: the last occurrence in `src` (the only one, for a list that
represents a JavaScript object). -/
def jlookupLast (fields : List (String × JVal)) (k : String) : Option JVal :=
  jlookup fields.reverse k

/-- A declarative prop definition `\x7b predicate, single \x7d`
(§ `reducePropsMap`): `single` is the truthiness of the `single` key
read by `_.get(propDef, 'single')` on line 92. -/
structure PropDef where
  single : Bool
  predicate : JVal → Bool

/-- The `commonProps` / page-type `props` option: either a custom
function of the full record list or a declarative name → `PropDef`
mapping (an object, modelled as its ordered field list). -/
inductive PropsConfig where
  | fn : (List JVal → List (String × JVal)) → PropsConfig
  | decl : List (String × PropDef) → PropsConfig

/-- One entry of the `_.reduce` of lines 91–97: bind the prop name to
`_.find(data, predicate)` when `single` is truthy (JavaScript
`undefined`, i.e. `JVal.undef`, when nothing matches) and to
`_.filter(data, predicate)` otherwise; `_.assign(\x7b\x7d, accum,
\x7b [propName]: value \x7d)` is key assignment on the accumulator. -/
def propFoldStep (data : List JVal) (accum : List (String × JVal))
    (entry : String × PropDef) : List (String × JVal) :=
  if entry.2.single then
    objSet accum entry.1 ((data.find? entry.2.predicate).getD JVal.undef)
  else
    objSet accum entry.1 (JVal.arr (data.filter entry.2.predicate))

/-- The function `reducePropsMap(propsMap, data)` (lines 86–98): a function is
applied directly; a declarative map is reduced entry by entry. -/
def reducePropsMap (propsMap : PropsConfig) (data : List JVal) :
    List (String × JVal) :=
  match propsMap with
  | PropsConfig.fn f => f data
  | PropsConfig.decl m => m.foldl (propFoldStep data) []

/-- The value a declarative prop definition resolves to over a record
list: the first matching record for `single` (JavaScript `undefined`
when none matches), all matching records otherwise. -/
def propValOf (data : List JVal) (propDef : PropDef) : JVal :=
  if propDef.single then (data.find? propDef.predicate).getD JVal.undef
  else JVal.arr (data.filter propDef.predicate)

/-- A declarative page-type definition (§ `reducePages`, declarative
branch): predicate, optional path template and a props option. -/
structure PageTypeDef where
  predicate : JVal → Bool
  path : Option String
  props : PropsConfig

/-- Line 69, `pageTypeDef.path || '/\x7bslug\x7d'`: the default kicks
in when `path` is absent or falsy (the empty string). -/
def pathTemplateOf (ptd : PageTypeDef) : String :=
  match ptd.path with
  | some p => if p = "" then "/\x7bslug\x7d" else p
  | none => "/\x7bslug\x7d"

/-- The object literal of lines 77–81,
`\x7b path: urlPath, page: page, ...reducePropsMap(...) \x7d`: `path`
and `page` are written first, then the resolved props are spread on
top (so a prop named `path` or `page` overrides them). -/
def mkPageEntry (urlPath : String) (page : JVal)
    (props : List (String × JVal)) : JVal :=
  JVal.obj (assignFields [("path", JVal.str urlPath), ("page", page)] props)

/-- The body of the inner `_.reduce` of lines 70–82: interpolate the
definition's template for one matching record — a throwing
interpolation is caught and the record skipped (lines 71–76) — and
otherwise append the page entry, whose props are computed over the
full record list `data`. -/
def pageFoldStep (ptd : PageTypeDef) (data : List JVal) (accum : List JVal)
    (page : JVal) : List JVal :=
  match interpolatePagePath (pathTemplateOf ptd) page with
  | Except.error _ => accum
  | Except.ok urlPath =>
      accum ++ [mkPageEntry urlPath page (reducePropsMap ptd.props data)]

/-- The declarative branch of `reducePages` (lines 67–83): for each
definition, filter the full record list by its predicate and reduce
the matching records onto the accumulator. -/
def reducePagesDecl (defs : List PageTypeDef) (data : List JVal) : List JVal :=
  defs.foldl (fun accum ptd =>
    (data.filter ptd.predicate).foldl (pageFoldStep ptd data) accum) []

/-- The page entry one record contributes under one definition:
`none` when interpolation throws (the record is skipped). -/
def pageEntryOf (ptd : PageTypeDef) (data : List JVal) (page : JVal) :
    Option JVal :=
  match interpolatePagePath (pathTemplateOf ptd) page with
  | Except.ok urlPath =>
      some (mkPageEntry urlPath page (reducePropsMap ptd.props data))
  | Except.error _ => none

/-- Models `_.assign(item, \x7b path: urlPath \x7d)` of lines 61–63: only
reachable when `item` is an object (its `path` key was a string). -/
def setItemPath (item : JVal) (urlPath : String) : JVal :=
  match item with
  | JVal.obj fields => JVal.obj (objSet fields "path" (JVal.str urlPath))
  | other => other

/-- The per-item step of the function-mode branch of `reducePages`
(lines 53–64): `interpolatePagePath(item.path, item.page)` throws the
`MissingFieldError` on a missing/falsy field, and also throws a
`TypeError` when `item.path` is not a string (no `.replace` method);
either exception is caught by the `try` and the item dropped
(`none`). On success the resolved path is assigned back onto the item. -/
def renderFnItem (item : JVal) : Option JVal :=
  match jgetKey item "path" with
  | JVal.str t =>
      match interpolatePagePath t (jgetKey item "page") with
      | Except.ok urlPath => some (setItemPath item urlPath)
      | Except.error _ => none
  | _ => none

/-- The body of the `_.reduce` of lines 53–64: a failed item is
skipped (`return accum`), a successful one appended with its resolved
path. -/
def fnFoldStep (accum : List JVal) (item : JVal) : List JVal :=
  match renderFnItem item with
  | some rendered => accum ++ [rendered]
  | none => accum

/-- The function-mode branch of `reducePages` applied to the list the
custom `pages` function returned. -/
def reducePagesFn (pageObjects : List JVal) : List JVal :=
  pageObjects.foldl fnFoldStep []

/-- The `pages` option: a custom function or a declarative list of
page-type definitions. -/
inductive PagesConfig where
  | fn : (List JVal → List JVal) → PagesConfig
  | decl : List PageTypeDef → PagesConfig

/-- The function `reducePages(pages, data)` (lines 49–84). -/
def reducePages (pages : PagesConfig) (data : List JVal) : List JVal :=
  match pages with
  | PagesConfig.fn f => reducePagesFn (f data)
  | PagesConfig.decl defs => reducePagesDecl defs data

/-- The snapshot persisted to the cache file:
`\x7b props, pages \x7d`. -/
structure Snapshot where
  props : List (String × JVal)
  pages : List JVal

/-- The function `reduceAndTransformData(data, \x7b commonProps, pages \x7d)`
(lines 42–47). -/
def reduceAndTransformData (data : List JVal) (commonProps : PropsConfig)
    (pages : PagesConfig) : Snapshot :=
  ⟨reducePropsMap commonProps data, reducePages pages data⟩

/-- Models `Object(v)` as used by `_.assign` on its first argument:
`undefined` (and `null`) become a fresh empty object; an object is
itself. (Number/string wrappers are irrelevant here: the only
non-object that reaches this in the source is `undefined`, from a
failed `_.find`.) -/
def jObjectFields : JVal → List (String × JVal)
  | JVal.obj fields => fields
  | _ => []

/-- lodash `isEqual(v, s)` against a string source value: true exactly
when `v` is that same string. -/
def isStr (v : JVal) (s : String) : Bool :=
  match v with
  | JVal.str t => t = s
  | _ => false

/-- The `_.matches(\x7b path: pagePath \x7d)` predicate built by
`_.find(data.pages, \x7b path: pagePath \x7d)` on line 334: the page's
`path` property must deep-equal the string argument (no
normalization). -/
def pageMatchesPath (pagePath : String) (p : JVal) : Bool :=
  isStr (jgetKey p "path") pagePath

/-- The method `SourcebitDataClient.getPropsFromCMSDataForPagePath(data, pagePath)`
(lines 333–339): find the first page whose `path` equals the argument,
then `_.assign(page, data.props)` copies the shared props over the
found page — coercing a failed find (`undefined`) to an empty object
first, as `_.assign` does with `Object(object)`. -/
def getPropsFromCMSDataForPagePath (data : Snapshot) (pagePath : String) : JVal :=
  let page := data.pages.find? (pageMatchesPath pagePath)
  JVal.obj (assignFields (jObjectFields (page.getD JVal.undef)) data.props)

/-- Line 18: `DEFAULT_FILE_CACHE_PATH =
path.join(process.cwd(), '.sourcebit-nextjs-cache.json')`. -/
def DEFAULT_FILE_CACHE_PATH (cwd : String) : String :=
  cwd ++ "/.sourcebit-nextjs-cache.json"

/-- Line 299: `maxNumOfRetries = 10`. -/
def maxNumOfRetries : Nat := 10

/-- Line 298: `retryDelay = 500` (milliseconds between existence
checks). -/
def retryDelay : Nat := 500

/-- The rejection of line 308: the cache file was still absent after
the full retry budget; the message names the path and the number of
retries. -/
structure CacheNotFoundError where
  path : String
  numOfRetries : Nat

/-- A timeline of the consumer's file system: `fsAt n p` is the parsed
JSON content of file `p` at the moment of the n-th existence check
(`none` when the file does not exist). `fse.readJson` after a
successful check is modelled as returning that content. -/
def FsTimeline : Type := Nat → String → Option Snapshot

/-- The loop `checkPathExists` of `SourcebitDataClient.getData` (lines
297–314): check whether the cache file exists; while it does not and
fewer than `maxNumOfRetries` retries have happened, wait `retryDelay`
ms and check again; once the budget is exhausted reject with the
`CacheNotFoundError`; as soon as a check succeeds, read and return the
file's JSON content. -/
def checkPathExists (cwd : String) (fsAt : FsTimeline) (numOfRetries : Nat) :
    Except CacheNotFoundError Snapshot :=
  match fsAt numOfRetries (DEFAULT_FILE_CACHE_PATH cwd) with
  | some snapshot => Except.ok snapshot
  | none =>
      if numOfRetries < maxNumOfRetries then
        checkPathExists cwd fsAt (numOfRetries + 1)
      else Except.error ⟨DEFAULT_FILE_CACHE_PATH cwd, numOfRetries⟩
termination_by maxNumOfRetries - numOfRetries

/-- The method `SourcebitDataClient.getData` (lines 290–319): poll for the cache
file at the hard-coded `DEFAULT_FILE_CACHE_PATH` — the method takes no
options and cannot see a configured `cacheFilePath` — then parse it as
JSON. -/
def getData (cwd : String) (fsAt : FsTimeline) : Except CacheNotFoundError Snapshot :=
  checkPathExists cwd fsAt 0

/-- The method `SourcebitDataClient.getStaticPaths` (lines 321–325):
`_.map(data.pages, (page) => page.path)`. -/
def getStaticPaths (cwd : String) (fsAt : FsTimeline) :
    Except CacheNotFoundError (List JVal) :=
  match getData cwd fsAt with
  | Except.ok data => Except.ok (data.pages.map (fun page => jgetKey page "path"))
  | Except.error e => Except.error e

/-- The method `SourcebitDataClient.getStaticPropsForPageAtPath` (lines 327–331). -/
def getStaticPropsForPageAtPath (cwd : String) (fsAt : FsTimeline)
    (pagePath : String) : Except CacheNotFoundError JVal :=
  match getData cwd fsAt with
  | Except.ok data => Except.ok (getPropsFromCMSDataForPagePath data pagePath)
  | Except.error e => Except.error e

/-- The plugin options relevant to the cache file (line 241 and
line 255 read `cacheFilePath` with `_.get(options, 'cacheFilePath',
DEFAULT_FILE_CACHE_PATH)`). -/
structure Options where
  cacheFilePath : Option String

/-- Models `_.get(options, 'cacheFilePath', DEFAULT_FILE_CACHE_PATH)`: the
configured path, defaulting to the fixed cache path. -/
def configuredCacheFilePath (cwd : String) (options : Options) : String :=
  options.cacheFilePath.getD (DEFAULT_FILE_CACHE_PATH cwd)

/-- The producer's file system as a snapshot store: path → parsed
content. -/
def FS : Type := String → Option Snapshot

/-- The write of `transform` (lines 270–271): `fse.ensureFile` +
`fse.writeJson` replace the content of the configured cache file,
leaving every other path untouched. `transformedData` is the snapshot
computed by `reduceAndTransformData` (possibly augmented with the
live-update props). -/
def transformWrite (cwd : String) (options : Options)
    (transformedData : Snapshot) (fs : FS) : FS :=
  fun p =>
    if p = configuredCacheFilePath cwd options then some transformedData else fs p

/-- Line 17: the fixed wake token. -/
def LIVE_UPDATE_EVENT_NAME : String := "props_changed"

/-- The process-wide state of the websocket watcher
(`startStaticPropsWatcher`, lines 22–40): `subscribers` is the list of
connections for which a `LIVE_UPDATE_EVENT_NAME` listener has been
registered on the module's `eventEmitter` (line 33), in registration
order; `openConns` tracks which connections are currently open
(maintained by the `ws` library, not by the plugin). Connections are
identified by numbers. -/
structure NotifierState where
  subscribers : List Nat
  openConns : List Nat

/-- The `connection` handler (lines 25–39): register a broadcast
listener for the new connection and send it the `"hello"` greeting.
Returns the new state and the messages sent, as (connection, payload)
pairs. -/
def onConnection (s : NotifierState) (c : Nat) :
    NotifierState × List (Nat × String) :=
  (⟨s.subscribers ++ [c], s.openConns ++ [c]⟩, [(c, "hello")])

/-- The `close` handler (lines 30–32): it only logs. In particular it
does not remove the connection's `eventEmitter` listener, so the
subscriber list is unchanged; only the connection itself is no longer
open. -/
def onClose (s : NotifierState) (c : Nat) :
    NotifierState × List (Nat × String) :=
  (⟨s.subscribers, s.openConns.erase c⟩, [])

/-- The broadcast `eventEmitter.emit(LIVE_UPDATE_EVENT_NAME)` (line 274): every
registered listener fires once, sending the wake token on its
connection (line 35), whether or not that connection is still open. -/
def broadcastLiveUpdate (s : NotifierState) : List (Nat × String) :=
  s.subscribers.map (fun c => (c, LIVE_UPDATE_EVENT_NAME))

/-! ## Object-lookup lemmas -/

theorem jlookup_nil (k : String) : jlookup [] k = none := rfl

theorem jlookup_cons (p : String × JVal) (rest : List (String × JVal)) (k : String) :
    jlookup (p :: rest) k = if p.1 = k then some p.2 else jlookup rest k := by
  by_cases h : p.1 = k <;> simp [jlookup, List.find?_cons, h]

theorem jlookup_append (a b : List (String × JVal)) (k : String) :
    jlookup (a ++ b) k = (jlookup a k).or (jlookup b k) := by
  simp [jlookup, List.find?_append, Option.map_or']

theorem jlookup_eq_none_iff (fields : List (String × JVal)) (k : String) :
    jlookup fields k = none ↔ k ∉ fields.map Prod.fst := by
  induction fields with
  | nil => simp [jlookup_nil]
  | cons p rest ih =>
    rw [jlookup_cons]
    by_cases h : p.1 = k
    · simp [h]
    · rw [if_neg h, ih, List.map_cons, List.mem_cons]
      constructor
      · intro hnk hor
        rcases hor with h1 | h2
        · exact h h1.symm
        · exact hnk h2
      · intro hno hmem
        exact hno (Or.inr hmem)

theorem jlookup_mem_nodup (fields : List (String × JVal)) (k : String) (v : JVal)
    (hnd : (fields.map Prod.fst).Nodup) (hmem : (k, v) ∈ fields) :
    jlookup fields k = some v := by
  induction fields with
  | nil => cases hmem
  | cons p rest ih =>
    have hnd2 : p.1 ∉ rest.map Prod.fst ∧ (rest.map Prod.fst).Nodup := by
      rw [List.map_cons, List.nodup_cons] at hnd
      exact hnd
    rcases List.mem_cons.mp hmem with heq | hrest
    · subst heq
      simp [jlookup_cons]
    · have hp1 : p.1 ≠ k := by
        intro hpk
        exact hnd2.1 (by
          rw [hpk]
          exact List.mem_map.mpr ⟨(k, v), hrest, rfl⟩)
      rw [jlookup_cons, if_neg hp1]
      exact ih hnd2.2 hrest

theorem jlookup_objSet (fields : List (String × JVal)) (k : String) (v : JVal)
    (k2 : String) :
    jlookup (objSet fields k v) k2 = if k2 = k then some v else jlookup fields k2 := by
  induction fields with
  | nil =>
    by_cases h : k2 = k <;> simp [objSet, jlookup_cons, jlookup_nil, h]
    · intro hk; exact h hk.symm
  | cons p rest ih =>
    rw [objSet]
    by_cases hp : p.1 = k
    · rw [if_pos hp, jlookup_cons, jlookup_cons]
      by_cases h2 : k2 = k
      · simp [h2]
      · have : ¬(k = k2) := fun hk => h2 hk.symm
        simp only [this, if_false, hp]
        by_cases h3 : p.1 = k2
        · exact absurd (hp.symm.trans h3) (fun hk => h2 hk.symm)
        · simp [h3, h2]
    · rw [if_neg hp, jlookup_cons, jlookup_cons, ih]
      by_cases h3 : p.1 = k2
      · have : ¬(k2 = k) := fun hk => hp (h3.trans hk)
        simp [h3, this]
      · simp [h3]

theorem jlookup_assignFields (base src : List (String × JVal)) (k : String) :
    jlookup (assignFields base src) k = (jlookupLast src k).or (jlookup base k) := by
  induction src generalizing base with
  | nil => simp [assignFields, jlookupLast, jlookup_nil]
  | cons p rest ih =>
    have hstep : assignFields base (p :: rest) = assignFields (objSet base p.1 p.2) rest := by
      simp [assignFields]
    rw [hstep, ih, jlookupLast, jlookupLast, List.reverse_cons, jlookup_append,
      Option.or_assoc, jlookup_objSet]
    congr 1
    rw [jlookup_cons, jlookup_nil]
    by_cases h : k = p.1
    · simp [h]
    · have : ¬(p.1 = k) := fun hk => h hk.symm
      simp [h, this]

theorem jlookupLast_eq_jlookup (fields : List (String × JVal)) (k : String)
    (hnd : (fields.map Prod.fst).Nodup) :
    jlookupLast fields k = jlookup fields k := by
  induction fields with
  | nil => rfl
  | cons p rest ih =>
    have hnd2 : p.1 ∉ rest.map Prod.fst ∧ (rest.map Prod.fst).Nodup := by
      rw [List.map_cons, List.nodup_cons] at hnd
      exact hnd
    rw [jlookupLast, List.reverse_cons, jlookup_append, ← jlookupLast, ih hnd2.2,
      jlookup_cons, jlookup_cons, jlookup_nil]
    by_cases h : p.1 = k
    · have hnone : jlookup rest k = none :=
        (jlookup_eq_none_iff rest k).mpr (h ▸ hnd2.1)
      simp [hnone, h]
    · simp [h, Option.or_none]

/-! ## Interpolation lemmas -/

theorem chunkFields_nil : chunkFields [] = [] := rfl

theorem chunkFields_cons_lit (c : Char) (rest : List Chunk) :
    chunkFields (Chunk.lit c :: rest) = chunkFields rest := by
  simp [chunkFields]

theorem chunkFields_cons_ph (f : String) (rest : List Chunk) :
    chunkFields (Chunk.ph f :: rest) = f :: chunkFields rest := by
  simp [chunkFields]

theorem renderOk_nil (page : JVal) : renderOk page [] = [] := rfl

theorem renderOk_cons_lit (page : JVal) (c : Char) (rest : List Chunk) :
    renderOk page (Chunk.lit c :: rest) = c :: renderOk page rest := by
  simp [renderOk]

theorem renderOk_cons_ph (page : JVal) (f : String) (rest : List Chunk) :
    renderOk page (Chunk.ph f :: rest) =
      trimSlashes (jtoString (jget page f)).data ++ renderOk page rest := by
  simp [renderOk]

theorem renderChunksE_ok_of_truthy (page : JVal) :
    ∀ chunks : List Chunk,
      (∀ f ∈ chunkFields chunks, truthy (jget page f) = true) →
      renderChunksE page chunks = Except.ok (renderOk page chunks) := by
  intro chunks
  induction chunks with
  | nil => intro _; rfl
  | cons ch rest ih =>
    intro h
    cases ch with
    | lit c =>
      rw [chunkFields_cons_lit] at h
      rw [renderChunksE, ih h, renderOk_cons_lit]
    | ph f =>
      rw [chunkFields_cons_ph] at h
      have hf : truthy (jget page f) = true := h f (List.mem_cons_self f _)
      have ih2 := ih (fun g hg => h g (List.mem_cons_of_mem f hg))
      rw [renderChunksE, ih2, renderOk_cons_ph]
      simp [hf]

theorem renderChunksE_ok_truthy (page : JVal) :
    ∀ (chunks : List Chunk) (out : List Char),
      renderChunksE page chunks = Except.ok out →
      ∀ f ∈ chunkFields chunks, truthy (jget page f) = true := by
  intro chunks
  induction chunks with
  | nil => intro out _ f hf; exact absurd hf (by simp [chunkFields_nil])
  | cons ch rest ih =>
    intro out h f hf
    cases ch with
    | lit c =>
      rw [chunkFields_cons_lit] at hf
      rw [renderChunksE] at h
      cases hrest : renderChunksE page rest with
      | ok out2 => exact ih out2 hrest f hf
      | error e => rw [hrest] at h; exact absurd h (by simp)
    | ph g =>
      rw [chunkFields_cons_ph] at hf
      rw [renderChunksE] at h
      by_cases hg : truthy (jget page g) = true
      · rcases List.mem_cons.mp hf with heq | hmem
        · exact heq ▸ hg
        · simp only [hg, if_true] at h
          cases hrest : renderChunksE page rest with
          | ok out2 => exact ih out2 hrest f hmem
          | error e => rw [hrest] at h; exact absurd h (by simp)
      · simp only [Bool.not_eq_true] at hg
        simp only [hg, Bool.false_eq_true, if_false] at h
        exact absurd h (by simp)

theorem renderChunksE_error (page : JVal) :
    ∀ (chunks : List Chunk) (e : MissingFieldError),
      renderChunksE page chunks = Except.error e →
      e.page = page ∧ e.field ∈ chunkFields chunks ∧
        truthy (jget page e.field) = false := by
  intro chunks
  induction chunks with
  | nil => intro e h; exact absurd h (by simp [renderChunksE])
  | cons ch rest ih =>
    intro e h
    cases ch with
    | lit c =>
      rw [renderChunksE] at h
      cases hrest : renderChunksE page rest with
      | ok out => rw [hrest] at h; exact absurd h (by simp)
      | error e2 =>
        rw [hrest] at h
        have he : e2 = e := by simpa using h
        have := ih e2 hrest
        rw [he] at this
        exact ⟨this.1, by rw [chunkFields_cons_lit]; exact this.2.1, this.2.2⟩
    | ph f =>
      rw [renderChunksE] at h
      by_cases hf : truthy (jget page f) = true
      · simp only [hf, if_true] at h
        cases hrest : renderChunksE page rest with
        | ok out => rw [hrest] at h; exact absurd h (by simp)
        | error e2 =>
          rw [hrest] at h
          have he : e2 = e := by simpa using h
          have := ih e2 hrest
          rw [he] at this
          exact ⟨this.1, by
            rw [chunkFields_cons_ph]
            exact List.mem_cons_of_mem f this.2.1, this.2.2⟩
      · simp only [Bool.not_eq_true] at hf
        simp only [hf, Bool.false_eq_true, if_false] at h
        have he : MissingFieldError.mk f page = e := by simpa using h
        refine ⟨by rw [← he], ?_, ?_⟩
        · rw [← he, chunkFields_cons_ph]
          exact List.mem_cons_self f _
        · rw [← he]
          exact hf

theorem finalizePath_head (cs : List Char) :
    (finalizePath cs).data.head? = some '/' := by
  rw [finalizePath]
  by_cases h : cs.head? = some '/'
  · simp only [h, if_true]
  · simp only [h, if_false]
    rfl

theorem renderOk_no_brace (page : JVal) (chunks : List Chunk)
    (hlit : ∀ c ∈ litChars chunks, c ≠ '\x7b' ∧ c ≠ '\x7d')
    (hval : ∀ f ∈ chunkFields chunks,
      ∀ c ∈ trimSlashes (jtoString (jget page f)).data, c ≠ '\x7b' ∧ c ≠ '\x7d') :
    ∀ c ∈ renderOk page chunks, c ≠ '\x7b' ∧ c ≠ '\x7d' := by
  intro c hc
  rw [renderOk, List.mem_flatMap] at hc
  obtain ⟨ch, hch, hcmem⟩ := hc
  cases ch with
  | lit c2 =>
    have : c = c2 := by simpa using hcmem
    subst this
    exact hlit c (by
      simp only [litChars, List.mem_filterMap]
      exact ⟨Chunk.lit c, hch, rfl⟩)
  | ph f =>
    exact hval f (by
      simp only [chunkFields, List.mem_filterMap]
      exact ⟨Chunk.ph f, hch, rfl⟩) c hcmem

/-! ## Fold characterizations of the reducers -/

theorem foldl_pageFoldStep (ptd : PageTypeDef) (data : List JVal) :
    ∀ (l accum : List JVal),
      l.foldl (pageFoldStep ptd data) accum =
        accum ++ l.filterMap (pageEntryOf ptd data) := by
  intro l
  induction l with
  | nil => intro accum; simp
  | cons x xs ih =>
    intro accum
    rw [List.foldl_cons]
    cases hx : interpolatePagePath (pathTemplateOf ptd) x with
    | ok u =>
      have h1 : pageFoldStep ptd data accum x =
          accum ++ [mkPageEntry u x (reducePropsMap ptd.props data)] := by
        simp only [pageFoldStep, hx]
      have h2 : pageEntryOf ptd data x =
          some (mkPageEntry u x (reducePropsMap ptd.props data)) := by
        simp only [pageEntryOf, hx]
      rw [h1, ih, List.filterMap_cons, h2]
      simp
    | error e =>
      have h1 : pageFoldStep ptd data accum x = accum := by
        simp only [pageFoldStep, hx]
      have h2 : pageEntryOf ptd data x = none := by
        simp only [pageEntryOf, hx]
      rw [h1, ih, List.filterMap_cons, h2]

theorem reducePagesDecl_eq (defs : List PageTypeDef) (data : List JVal) :
    reducePagesDecl defs data =
      defs.flatMap (fun ptd =>
        (data.filter ptd.predicate).filterMap (pageEntryOf ptd data)) := by
  suffices h : ∀ (ds : List PageTypeDef) (accum : List JVal),
      ds.foldl (fun accum ptd =>
          (data.filter ptd.predicate).foldl (pageFoldStep ptd data) accum) accum =
        accum ++ ds.flatMap (fun ptd =>
          (data.filter ptd.predicate).filterMap (pageEntryOf ptd data)) by
    simpa [reducePagesDecl] using h defs []
  intro ds
  induction ds with
  | nil => intro accum; simp
  | cons d rest ih =>
    intro accum
    rw [List.foldl_cons, foldl_pageFoldStep, ih, List.flatMap_cons]
    simp

theorem reducePagesFn_eq (items : List JVal) :
    reducePagesFn items = items.filterMap renderFnItem := by
  suffices h : ∀ (l accum : List JVal),
      l.foldl fnFoldStep accum = accum ++ l.filterMap renderFnItem by
    simpa [reducePagesFn] using h items []
  intro l
  induction l with
  | nil => intro accum; simp
  | cons x xs ih =>
    intro accum
    rw [List.foldl_cons]
    cases hx : renderFnItem x with
    | some r =>
      have h1 : fnFoldStep accum x = accum ++ [r] := by simp only [fnFoldStep, hx]
      rw [h1, ih, List.filterMap_cons, hx]
      simp
    | none =>
      have h1 : fnFoldStep accum x = accum := by simp only [fnFoldStep, hx]
      rw [h1, ih, List.filterMap_cons, hx]

theorem reducePropsMap_decl_eq (m : List (String × PropDef)) (data : List JVal) :
    reducePropsMap (PropsConfig.decl m) data =
      assignFields [] (m.map (fun e => (e.1, propValOf data e.2))) := by
  rw [reducePropsMap, assignFields, List.foldl_map]
  congr 1
  funext acc e
  rw [propFoldStep, propValOf]
  by_cases h : e.2.single <;> simp [h]

theorem isStr_eq_true (v : JVal) (s : String) :
    isStr v s = true ↔ v = JVal.str s := by
  cases v <;> simp [isStr]

/-! ## Claim C1 — interpolation success path -/

/-- C1 (amended). For every template and record such that every dotted
field path referenced by a placeholder resolves to a truthy value,
`interpolatePagePath` succeeds; the result is the template with each
placeholder replaced by its resolved value — stringified, with leading
and trailing slashes trimmed — and it starts with a slash, with
exactly one slash prepended when the substituted text does not already
start with one. The original claim's guarantee that the result holds
no brace characters only holds under the additional hypotheses that
the template's literal characters and the substituted values are
brace-free: a brace inside a substituted value (or a stray brace in
the template) survives into the result, see the counterexample. -/
theorem interpolatePagePath_truthy_spec (tmpl : String) (page : JVal)
    (h : ∀ f ∈ placeholders tmpl.data, truthy (jget page f) = true) :
    interpolatePagePath tmpl page =
      Except.ok (finalizePath (renderOk page (templateChunks tmpl.data))) ∧
    (finalizePath (renderOk page (templateChunks tmpl.data))).data.head? = some '/' ∧
    ((renderOk page (templateChunks tmpl.data)).head? = some '/' →
      finalizePath (renderOk page (templateChunks tmpl.data)) =
        String.mk (renderOk page (templateChunks tmpl.data))) ∧
    ((renderOk page (templateChunks tmpl.data)).head? ≠ some '/' →
      finalizePath (renderOk page (templateChunks tmpl.data)) =
        String.mk ('/' :: renderOk page (templateChunks tmpl.data))) ∧
    ((∀ c ∈ litChars (templateChunks tmpl.data), c ≠ '\x7b' ∧ c ≠ '\x7d') →
      (∀ f ∈ placeholders tmpl.data,
        ∀ c ∈ trimSlashes (jtoString (jget page f)).data, c ≠ '\x7b' ∧ c ≠ '\x7d') →
      ∀ c ∈ (finalizePath (renderOk page (templateChunks tmpl.data))).data,
        c ≠ '\x7b' ∧ c ≠ '\x7d') := by
  simp only [placeholders] at h
  have hok := renderChunksE_ok_of_truthy page (templateChunks tmpl.data) h
  refine ⟨by rw [interpolatePagePath, hok], finalizePath_head _, ?_, ?_, ?_⟩
  · intro h3
    rw [finalizePath, if_pos h3]
  · intro h4
    rw [finalizePath, if_neg h4]
  · intro hlit hval c hc
    have hnb := renderOk_no_brace page (templateChunks tmpl.data) hlit
      (by simpa [placeholders] using hval)
    rw [finalizePath] at hc
    by_cases hh : (renderOk page (templateChunks tmpl.data)).head? = some '/'
    · rw [if_pos hh] at hc
      exact hnb c hc
    · rw [if_neg hh] at hc
      rcases List.mem_cons.mp hc with heq | hmem
      · subst heq
        exact ⟨by decide, by decide⟩
      · exact hnb c hmem

/-- Witness for C1: the spec's own example, template `/posts/\x7bslug\x7d`
with record `\x7b slug: "hello-world" \x7d`. -/
theorem interpolatePagePath_truthy_spec_witness :
    (∀ f ∈ placeholders "/posts/\x7bslug\x7d".data,
      truthy (jget (JVal.obj [("slug", JVal.str "hello-world")]) f) = true) ∧
    interpolatePagePath "/posts/\x7bslug\x7d"
      (JVal.obj [("slug", JVal.str "hello-world")]) =
        Except.ok "/posts/hello-world" := by
  refine ⟨by decide, ?_⟩
  have h := (interpolatePagePath_truthy_spec "/posts/\x7bslug\x7d"
    (JVal.obj [("slug", JVal.str "hello-world")]) (by decide)).1
  rw [h]
  rfl

/-- C1 as frozen is false: a brace inside a resolved field value
survives substitution, so the result can contain braces even though
every placeholder resolved to a truthy value. -/
theorem interpolatePagePath_brace_counterexample :
    (∀ f ∈ placeholders "/\x7bslug\x7d".data,
      truthy (jget (JVal.obj [("slug", JVal.str "\x7boops\x7d")]) f) = true) ∧
    interpolatePagePath "/\x7bslug\x7d"
      (JVal.obj [("slug", JVal.str "\x7boops\x7d")]) =
        Except.ok "/\x7boops\x7d" ∧
    '\x7b' ∈ "/\x7boops\x7d".data ∧ '\x7d' ∈ "/\x7boops\x7d".data :=
  ⟨by decide, by rfl, by decide, by decide⟩

/-! ## Claim C2 — interpolation failure path -/

/-- C2 (confirmed). If some placeholder's dotted field path resolves to
a missing or falsy value, `interpolatePagePath` fails with a
`MissingFieldError` naming a failing field and carrying the page
object, and returns no path. -/
theorem interpolatePagePath_missing_field_spec (tmpl : String) (page : JVal)
    (h : ∃ f ∈ placeholders tmpl.data, truthy (jget page f) = false) :
    ∃ e : MissingFieldError,
      interpolatePagePath tmpl page = Except.error e ∧
      e.page = page ∧ e.field ∈ placeholders tmpl.data ∧
      truthy (jget page e.field) = false ∧
      ∀ s : String, interpolatePagePath tmpl page ≠ Except.ok s := by
  cases hr : renderChunksE page (templateChunks tmpl.data) with
  | ok out =>
    obtain ⟨f, hf, hfalse⟩ := h
    have htrue := renderChunksE_ok_truthy page (templateChunks tmpl.data) out hr f
      (by simpa [placeholders] using hf)
    rw [htrue] at hfalse
    exact absurd hfalse (by simp)
  | error e =>
    have hprops := renderChunksE_error page (templateChunks tmpl.data) e hr
    refine ⟨e, by rw [interpolatePagePath, hr], hprops.1,
      by simpa [placeholders] using hprops.2.1, hprops.2.2, ?_⟩
    intro s hs
    rw [interpolatePagePath, hr] at hs
    exact absurd hs (by simp)

/-- Witness for C2: the spec's own example, a template referencing
`category.name` against a record with no `category`. -/
theorem interpolatePagePath_missing_field_spec_witness :
    (∃ f ∈ placeholders "/\x7bcategory.name\x7d/\x7bslug\x7d".data,
      truthy (jget (JVal.obj [("slug", JVal.str "s")]) f) = false) ∧
    ∃ e : MissingFieldError,
      interpolatePagePath "/\x7bcategory.name\x7d/\x7bslug\x7d"
        (JVal.obj [("slug", JVal.str "s")]) = Except.error e := by
  refine ⟨⟨"category.name", by decide, by decide⟩, ?_⟩
  obtain ⟨e, he, -⟩ := interpolatePagePath_missing_field_spec
    "/\x7bcategory.name\x7d/\x7bslug\x7d" (JVal.obj [("slug", JVal.str "s")])
    ⟨"category.name", by decide, by decide⟩
  exact ⟨e, he⟩

/-! ## Claim C3 — failing records are skipped -/

/-- C3 (amended). A record or item whose path interpolation fails
contributes no page entry and the reduction is total (no exception
escapes: both reducers are plain functions into lists). In function
mode, the entries of the other items are exactly those of the list
with the failing item absent. In declarative mode, the failing record
is excluded from the page list but — unlike the frozen claim — it
still participates in the props of every other record's entry, which
are computed over the full record list: the other entries are those of
the record list with the failing record removed only from the
filtered page set, while `pageEntryOf` keeps receiving the full list. -/
theorem reducePages_skip_spec :
    (∀ (l1 l2 : List JVal) (item : JVal), renderFnItem item = none →
      reducePagesFn (l1 ++ item :: l2) = reducePagesFn (l1 ++ l2)) ∧
    (∀ (item : JVal) (t : String) (e : MissingFieldError),
      jgetKey item "path" = JVal.str t →
      interpolatePagePath t (jgetKey item "page") = Except.error e →
      renderFnItem item = none) ∧
    (∀ (defs : List PageTypeDef) (l1 l2 : List JVal) (bad : JVal),
      (∀ ptd ∈ defs, ∃ e, interpolatePagePath (pathTemplateOf ptd) bad = Except.error e) →
      reducePagesDecl defs (l1 ++ bad :: l2) =
        defs.flatMap (fun ptd =>
          ((l1 ++ l2).filter ptd.predicate).filterMap
            (pageEntryOf ptd (l1 ++ bad :: l2)))) := by
  refine ⟨?_, ?_, ?_⟩
  · intro l1 l2 item h
    rw [reducePagesFn_eq, reducePagesFn_eq, List.filterMap_append,
      List.filterMap_append, List.filterMap_cons, h]
  · intro item t e hpath herr
    simp only [renderFnItem, hpath, herr]
  · intro defs l1 l2 bad h
    rw [reducePagesDecl_eq]
    induction defs with
    | nil => simp
    | cons d rest ih =>
      rw [List.flatMap_cons, List.flatMap_cons,
        ih (fun p hp => h p (List.mem_cons_of_mem d hp))]
      congr 1
      obtain ⟨e, he⟩ := h d (List.mem_cons_self d rest)
      have hnone : pageEntryOf d (l1 ++ bad :: l2) bad = none := by
        simp only [pageEntryOf, he]
      rw [List.filter_append, List.filter_append, List.filterMap_append,
        List.filterMap_append]
      congr 1
      rw [List.filter_cons]
      by_cases hp : d.predicate bad
      · simp only [hp, if_true, List.filterMap_cons, hnone]
      · simp only [hp, Bool.false_eq_true, if_false]

/-- Witness for C3: a function-mode item whose template references a
field its page lacks is dropped. -/
theorem reducePages_skip_spec_witness :
    renderFnItem (JVal.obj [("path", JVal.str "/\x7bslug\x7d"), ("page", JVal.obj [])]) =
      none ∧
    reducePagesFn [JVal.obj [("path", JVal.str "/\x7bslug\x7d"), ("page", JVal.obj [])]] =
      [] := by
  refine ⟨rfl, ?_⟩
  have h := reducePages_skip_spec.1 [] []
    (JVal.obj [("path", JVal.str "/\x7bslug\x7d"), ("page", JVal.obj [])]) rfl
  simpa using h

/-- C3 as frozen is false in declarative mode: the entries of the
other records are not those of the list without the failing record,
because props are computed over the full record list — here the
`items` prop of the surviving record's entry still contains the
failing record. -/
theorem reducePages_skip_counterexample :
    interpolatePagePath "/\x7bslug\x7d" (JVal.obj []) =
      Except.error ⟨"slug", JVal.obj []⟩ ∧
    reducePagesDecl
        [⟨fun _ => true, none, PropsConfig.decl [("items", ⟨false, fun _ => true⟩)]⟩]
        [JVal.obj [], JVal.obj [("slug", JVal.str "g")]] =
      [JVal.obj [("path", JVal.str "/g"), ("page", JVal.obj [("slug", JVal.str "g")]),
        ("items", JVal.arr [JVal.obj [], JVal.obj [("slug", JVal.str "g")]])]] ∧
    reducePagesDecl
        [⟨fun _ => true, none, PropsConfig.decl [("items", ⟨false, fun _ => true⟩)]⟩]
        [JVal.obj [("slug", JVal.str "g")]] =
      [JVal.obj [("path", JVal.str "/g"), ("page", JVal.obj [("slug", JVal.str "g")]),
        ("items", JVal.arr [JVal.obj [("slug", JVal.str "g")]])]] ∧
    [JVal.obj [("path", JVal.str "/g"), ("page", JVal.obj [("slug", JVal.str "g")]),
        ("items", JVal.arr [JVal.obj [], JVal.obj [("slug", JVal.str "g")]])]] ≠
      [JVal.obj [("path", JVal.str "/g"), ("page", JVal.obj [("slug", JVal.str "g")]),
        ("items", JVal.arr [JVal.obj [("slug", JVal.str "g")]])]] := by
  refine ⟨rfl, rfl, rfl, ?_⟩
  intro h
  have h2 := congrArg (fun l =>
    match l with
    | [JVal.obj [_, _, (_, JVal.arr xs)]] => xs.length
    | _ => 0) h
  exact absurd h2 (by decide)

/-! ## Claim C4 — declarative props reduction -/

/-- C4 (confirmed). In a declarative props mapping, `single = true`
binds the prop name to the first record (in input order) satisfying
the predicate — JavaScript `undefined` when none does — and
`single = false` binds it to the list of all satisfying records,
preserving input order without deduplication (the filtered list is a
sublist of the input). -/
theorem reducePropsMap_decl_spec (m : List (String × PropDef)) (data : List JVal)
    (name : String) (pd : PropDef) (hmem : (name, pd) ∈ m)
    (hnodup : (m.map Prod.fst).Nodup) :
    jlookup (reducePropsMap (PropsConfig.decl m) data) name =
      some (propValOf data pd) ∧
    (pd.single = true →
      propValOf data pd = (data.find? pd.predicate).getD JVal.undef) ∧
    (pd.single = false →
      propValOf data pd = JVal.arr (data.filter pd.predicate)) ∧
    (data.filter pd.predicate).Sublist data ∧
    (∀ (l1 : List JVal) (r : JVal) (l2 : List JVal), data = l1 ++ r :: l2 →
      (∀ x ∈ l1, pd.predicate x = false) → pd.predicate r = true →
      data.find? pd.predicate = some r) ∧
    ((∀ x ∈ data, pd.predicate x = false) → data.find? pd.predicate = none) := by
  refine ⟨?_, ?_, ?_, List.filter_sublist data, ?_, ?_⟩
  · rw [reducePropsMap_decl_eq, jlookup_assignFields, jlookup_nil, Option.or_none]
    have hkeys : (m.map (fun e => (e.1, propValOf data e.2))).map Prod.fst =
        m.map Prod.fst := by
      rw [List.map_map]
      rfl
    have hnd2 : ((m.map (fun e => (e.1, propValOf data e.2))).map Prod.fst).Nodup := by
      rw [hkeys]
      exact hnodup
    rw [jlookupLast_eq_jlookup _ _ hnd2]
    exact jlookup_mem_nodup _ _ _ hnd2 (List.mem_map.mpr ⟨(name, pd), hmem, rfl⟩)
  · intro h
    rw [propValOf, if_pos h]
  · intro h
    rw [propValOf, if_neg (by simp [h])]
  · intro l1 r l2 hdata h1 hr
    subst hdata
    rw [List.find?_append]
    have hn : l1.find? pd.predicate = none :=
      List.find?_eq_none.mpr (fun x hx => by simp [h1 x hx])
    rw [hn, Option.none_or, List.find?_cons_of_pos _ hr]
  · intro h
    exact List.find?_eq_none.mpr (fun x hx => by simp [h x hx])

/-- Witness for C4: a `single` prop and a collection prop over a
two-record list; the `single` prop gets the first match, the
collection prop both matches in order. -/
theorem reducePropsMap_decl_spec_witness :
    jlookup (reducePropsMap (PropsConfig.decl
        [("first", ⟨true, fun _ => true⟩), ("all", ⟨false, fun _ => true⟩)])
        [JVal.num 1, JVal.num 2]) "first" = some (JVal.num 1) ∧
    jlookup (reducePropsMap (PropsConfig.decl
        [("first", ⟨true, fun _ => true⟩), ("all", ⟨false, fun _ => true⟩)])
        [JVal.num 1, JVal.num 2]) "all" =
      some (JVal.arr [JVal.num 1, JVal.num 2]) := by
  constructor
  · have h := (reducePropsMap_decl_spec
      [("first", ⟨true, fun _ => true⟩), ("all", ⟨false, fun _ => true⟩)]
      [JVal.num 1, JVal.num 2] "first" ⟨true, fun _ => true⟩
      (List.mem_cons_self _ _) (by simp)).1
    rw [h]
    rfl
  · have h := (reducePropsMap_decl_spec
      [("first", ⟨true, fun _ => true⟩), ("all", ⟨false, fun _ => true⟩)]
      [JVal.num 1, JVal.num 2] "all" ⟨false, fun _ => true⟩
      (List.mem_cons_of_mem _ (List.mem_cons_self _ _)) (by simp)).1
    rw [h]
    rfl

/-! ## Claim C5 — declarative page reduction -/

/-- C5 (amended). In declarative mode the reducer emits, in definition
order then record order, one entry per record matching the
definition's predicate whose interpolation succeeds; the template
defaults to `/\x7bslug\x7d`; the entry's props are the definition's
props reduced over the full record list. The entry's `path` is the
interpolated path and its `page` the record — but, unlike the frozen
claim, only provided the definition's props contain no prop named
`path` or `page`: the resolved props are spread after those two keys
and override them (see the counterexample). Keys other than `path`
and `page` hold exactly the resolved props. -/
theorem reducePagesDecl_spec (defs : List PageTypeDef) (data : List JVal)
    (h : ∀ ptd ∈ defs, ∀ k ∈ (reducePropsMap ptd.props data).map Prod.fst,
      k ≠ "path" ∧ k ≠ "page") :
    reducePagesDecl defs data =
      defs.flatMap (fun ptd =>
        (data.filter ptd.predicate).filterMap (pageEntryOf ptd data)) ∧
    (∀ ptd ∈ defs, ptd.path = none → pathTemplateOf ptd = "/\x7bslug\x7d") ∧
    (∀ ptd ∈ defs, ∀ page urlPath,
      interpolatePagePath (pathTemplateOf ptd) page = Except.ok urlPath →
      pageEntryOf ptd data page =
        some (mkPageEntry urlPath page (reducePropsMap ptd.props data)) ∧
      jgetKey (mkPageEntry urlPath page (reducePropsMap ptd.props data)) "path" =
        JVal.str urlPath ∧
      jgetKey (mkPageEntry urlPath page (reducePropsMap ptd.props data)) "page" =
        page ∧
      (∀ k, k ≠ "path" → k ≠ "page" →
        jgetKey (mkPageEntry urlPath page (reducePropsMap ptd.props data)) k =
          (jlookupLast (reducePropsMap ptd.props data) k).getD JVal.undef)) := by
  refine ⟨reducePagesDecl_eq defs data, ?_, ?_⟩
  · intro ptd _ hp
    rw [pathTemplateOf, hp]
  · intro ptd hptd page urlPath hok
    have hprops := h ptd hptd
    have hpath_none : jlookupLast (reducePropsMap ptd.props data) "path" = none := by
      rw [jlookupLast]
      refine (jlookup_eq_none_iff _ _).mpr (fun hk => ?_)
      exact (hprops "path" (by simpa using hk)).1 rfl
    have hpage_none : jlookupLast (reducePropsMap ptd.props data) "page" = none := by
      rw [jlookupLast]
      refine (jlookup_eq_none_iff _ _).mpr (fun hk => ?_)
      exact (hprops "page" (by simpa using hk)).2 rfl
    refine ⟨by simp only [pageEntryOf, hok], ?_, ?_, ?_⟩
    · simp only [mkPageEntry, jgetKey, jlookup_assignFields, hpath_none,
        Option.none_or, jlookup_cons]
      simp
    · simp only [mkPageEntry, jgetKey, jlookup_assignFields, hpage_none,
        Option.none_or, jlookup_cons, jlookup_nil]
      simp
    · intro k hk1 hk2
      have hbase : jlookup [("path", JVal.str urlPath), ("page", page)] k = none := by
        rw [jlookup_cons, if_neg (fun hh => hk1 hh.symm), jlookup_cons,
          if_neg (fun hh => hk2 hh.symm), jlookup_nil]
      simp only [mkPageEntry, jgetKey, jlookup_assignFields, hbase, Option.or_none]

/-- Witness for C5: one definition over one record, with a props map
that avoids the reserved names; the emitted entry has the interpolated
path, the record as its page, and the resolved props. -/
theorem reducePagesDecl_spec_witness :
    reducePagesDecl
        [⟨fun _ => true, none, PropsConfig.decl [("items", ⟨false, fun _ => true⟩)]⟩]
        [JVal.obj [("slug", JVal.str "g")]] =
      [JVal.obj [("path", JVal.str "/g"), ("page", JVal.obj [("slug", JVal.str "g")]),
        ("items", JVal.arr [JVal.obj [("slug", JVal.str "g")]])]] ∧
    jgetKey (mkPageEntry "/g" (JVal.obj [("slug", JVal.str "g")])
        (reducePropsMap (PropsConfig.decl [("items", ⟨false, fun _ => true⟩)])
          [JVal.obj [("slug", JVal.str "g")]])) "path" = JVal.str "/g" := by
  have hside : ∀ ptd ∈ [(⟨fun _ => true, none,
      PropsConfig.decl [("items", ⟨false, fun _ => true⟩)]⟩ : PageTypeDef)],
      ∀ k ∈ (reducePropsMap ptd.props [JVal.obj [("slug", JVal.str "g")]]).map Prod.fst,
        k ≠ "path" ∧ k ≠ "page" := by
    intro p hp k hk
    have hpe : p = ⟨fun _ => true, none,
        PropsConfig.decl [("items", ⟨false, fun _ => true⟩)]⟩ := by
      simpa using hp
    subst hpe
    have hmap : (reducePropsMap
        (PropsConfig.decl [("items", ⟨false, fun _ => true⟩)])
        [JVal.obj [("slug", JVal.str "g")]]).map Prod.fst = ["items"] := rfl
    rw [hmap] at hk
    have hke : k = "items" := by simpa using hk
    subst hke
    exact ⟨by decide, by decide⟩
  have t := reducePagesDecl_spec
    [⟨fun _ => true, none, PropsConfig.decl [("items", ⟨false, fun _ => true⟩)]⟩]
    [JVal.obj [("slug", JVal.str "g")]] hside
  refine ⟨by rw [t.1]; rfl, ?_⟩
  exact (t.2.2 _ (List.mem_cons_self _ _) (JVal.obj [("slug", JVal.str "g")]) "/g"
    rfl).2.1

/-- C5 as frozen is false: a prop named `path` is spread after the
`path` key and overrides it, so the emitted entry's `path` is not the
interpolated template but the prop's value. -/
theorem reducePagesDecl_path_override_counterexample :
    interpolatePagePath "/\x7bslug\x7d" (JVal.obj [("slug", JVal.str "a")]) =
      Except.ok "/a" ∧
    reducePagesDecl
        [⟨fun _ => true, none, PropsConfig.decl [("path", ⟨true, fun _ => true⟩)]⟩]
        [JVal.obj [("slug", JVal.str "a")]] =
      [JVal.obj [("path", JVal.obj [("slug", JVal.str "a")]),
        ("page", JVal.obj [("slug", JVal.str "a")])]] ∧
    jgetKey (JVal.obj [("path", JVal.obj [("slug", JVal.str "a")]),
        ("page", JVal.obj [("slug", JVal.str "a")])]) "path" =
      JVal.obj [("slug", JVal.str "a")] ∧
    JVal.obj [("slug", JVal.str "a")] ≠ JVal.str "/a" :=
  ⟨rfl, rfl, rfl, fun h => JVal.noConfusion h⟩

/-! ## Claim C6 — merged props for a page path -/

/-- C6 (amended). `getPropsFromCMSDataForPagePath` looks for the first
page whose `path` equals the argument exactly. When one matches, the
result is that page merged with the shared props, a shared-prop key
overriding a same-named page key. When none matches the result is —
unlike the frozen claim — not `undefined` but an object holding
exactly the shared props: `_.assign` coerces the `undefined` find
result to a fresh empty object (see the counterexample). -/
theorem getPropsFromCMSDataForPagePath_spec (snap : Snapshot) (pagePath : String)
    (hnodup : (snap.props.map Prod.fst).Nodup) :
    (snap.pages.find? (pageMatchesPath pagePath) = none →
      getPropsFromCMSDataForPagePath snap pagePath =
        JVal.obj (assignFields [] snap.props) ∧
      ∀ k, jlookup (assignFields [] snap.props) k = jlookup snap.props k) ∧
    (∀ fields, snap.pages.find? (pageMatchesPath pagePath) = some (JVal.obj fields) →
      getPropsFromCMSDataForPagePath snap pagePath =
        JVal.obj (assignFields fields snap.props) ∧
      ∀ k, jlookup (assignFields fields snap.props) k =
        (jlookup snap.props k).or (jlookup fields k)) ∧
    (∀ p, snap.pages.find? (pageMatchesPath pagePath) = some p →
      jgetKey p "path" = JVal.str pagePath) ∧
    (∀ (l1 : List JVal) (p : JVal) (l2 : List JVal), snap.pages = l1 ++ p :: l2 →
      (∀ q ∈ l1, pageMatchesPath pagePath q = false) →
      pageMatchesPath pagePath p = true →
      snap.pages.find? (pageMatchesPath pagePath) = some p) := by
  refine ⟨?_, ?_, ?_, ?_⟩
  · intro hnone
    constructor
    · simp only [getPropsFromCMSDataForPagePath, hnone, Option.getD_none,
        jObjectFields]
    · intro k
      rw [jlookup_assignFields, jlookup_nil, Option.or_none,
        jlookupLast_eq_jlookup _ _ hnodup]
  · intro fields hsome
    constructor
    · simp only [getPropsFromCMSDataForPagePath, hsome, Option.getD_some,
        jObjectFields]
    · intro k
      rw [jlookup_assignFields, jlookupLast_eq_jlookup _ _ hnodup]
  · intro p hp
    have := List.find?_some hp
    exact (isStr_eq_true _ _).mp (by simpa [pageMatchesPath] using this)
  · intro l1 p l2 hpages h1 hp
    rw [hpages, List.find?_append]
    have hn : l1.find? (pageMatchesPath pagePath) = none :=
      List.find?_eq_none.mpr (fun x hx => by simp [h1 x hx])
    rw [hn, Option.none_or, List.find?_cons_of_pos _ hp]

/-- Witness for C6: the spec's own merge example — page
`\x7b title: "A" \x7d` and shared props `\x7b title: "B" \x7d` give
`title = "B"`. -/
theorem getPropsFromCMSDataForPagePath_spec_witness :
    getPropsFromCMSDataForPagePath
        ⟨[("title", JVal.str "B")],
          [JVal.obj [("path", JVal.str "/x"), ("title", JVal.str "A")]]⟩ "/x" =
      JVal.obj [("path", JVal.str "/x"), ("title", JVal.str "B")] ∧
    jgetKey (getPropsFromCMSDataForPagePath
        ⟨[("title", JVal.str "B")],
          [JVal.obj [("path", JVal.str "/x"), ("title", JVal.str "A")]]⟩ "/x")
      "title" = JVal.str "B" := by
  have t := (getPropsFromCMSDataForPagePath_spec
    ⟨[("title", JVal.str "B")],
      [JVal.obj [("path", JVal.str "/x"), ("title", JVal.str "A")]]⟩ "/x"
    (by simp)).2.1 [("path", JVal.str "/x"), ("title", JVal.str "A")] rfl
  refine ⟨?_, ?_⟩
  · rw [t.1]
    rfl
  · rw [t.1]
    rfl

/-- C6 as frozen is false: with no matching page the function does not
return `undefined` — it returns an object holding the shared props. -/
theorem getPropsFromCMSDataForPagePath_counterexample :
    getPropsFromCMSDataForPagePath ⟨[("title", JVal.str "B")], []⟩ "/x" =
      JVal.obj [("title", JVal.str "B")] ∧
    getPropsFromCMSDataForPagePath ⟨[("title", JVal.str "B")], []⟩ "/x" ≠
      JVal.undef := by
  refine ⟨rfl, ?_⟩
  intro h
  rw [show getPropsFromCMSDataForPagePath ⟨[("title", JVal.str "B")], []⟩ "/x" =
    JVal.obj [("title", JVal.str "B")] from rfl] at h
  exact JVal.noConfusion h

/-! ## Cache-polling lemmas -/

theorem checkPathExists_absent (cwd : String) (fsAt : FsTimeline)
    (h : ∀ n, n ≤ maxNumOfRetries → fsAt n (DEFAULT_FILE_CACHE_PATH cwd) = none) :
    ∀ j, j ≤ maxNumOfRetries →
      checkPathExists cwd fsAt j =
        Except.error ⟨DEFAULT_FILE_CACHE_PATH cwd, maxNumOfRetries⟩ := by
  have key : ∀ (fuel j : Nat), maxNumOfRetries - j ≤ fuel → j ≤ maxNumOfRetries →
      checkPathExists cwd fsAt j =
        Except.error ⟨DEFAULT_FILE_CACHE_PATH cwd, maxNumOfRetries⟩ := by
    intro fuel
    induction fuel with
    | zero =>
      intro j hfu hj
      have hj10 : j = maxNumOfRetries := by omega
      subst hj10
      rw [checkPathExists, h _ le_rfl]
      simp
    | succ fuel ih =>
      intro j hfu hj
      rw [checkPathExists, h j hj]
      by_cases hlt : j < maxNumOfRetries
      · rw [if_pos hlt]
        exact ih (j + 1) (by omega) (by omega)
      · have hj10 : j = maxNumOfRetries := by omega
        subst hj10
        simp
  intro j hj
  exact key (maxNumOfRetries - j) j le_rfl hj

theorem checkPathExists_found (cwd : String) (fsAt : FsTimeline) (snap : Snapshot)
    (m : Nat) (hm : m ≤ maxNumOfRetries)
    (hfound : fsAt m (DEFAULT_FILE_CACHE_PATH cwd) = some snap)
    (hpre : ∀ k, k < m → fsAt k (DEFAULT_FILE_CACHE_PATH cwd) = none) :
    ∀ j, j ≤ m → checkPathExists cwd fsAt j = Except.ok snap := by
  have key : ∀ (fuel j : Nat), m - j ≤ fuel → j ≤ m →
      checkPathExists cwd fsAt j = Except.ok snap := by
    intro fuel
    induction fuel with
    | zero =>
      intro j hfu hj
      have hjm : j = m := by omega
      subst hjm
      rw [checkPathExists, hfound]
    | succ fuel ih =>
      intro j hfu hj
      by_cases hjm : j = m
      · subst hjm
        rw [checkPathExists, hfound]
      · have hjlt : j < m := by omega
        rw [checkPathExists, hpre j hjlt, if_pos (show j < maxNumOfRetries by omega)]
        exact ih (j + 1) (by omega) (by omega)
  intro j hj
  exact key (m - j) j le_rfl hj

theorem checkPathExists_congr (cwd : String) (fsAt gsAt : FsTimeline)
    (h : ∀ n, fsAt n (DEFAULT_FILE_CACHE_PATH cwd) =
      gsAt n (DEFAULT_FILE_CACHE_PATH cwd)) :
    ∀ j, checkPathExists cwd fsAt j = checkPathExists cwd gsAt j := by
  have key : ∀ (fuel j : Nat), maxNumOfRetries - j ≤ fuel →
      checkPathExists cwd fsAt j = checkPathExists cwd gsAt j := by
    intro fuel
    induction fuel with
    | zero =>
      intro j hfu
      conv_lhs => rw [checkPathExists]
      conv_rhs => rw [checkPathExists]
      rw [← h j]
      cases hv : fsAt j (DEFAULT_FILE_CACHE_PATH cwd) with
      | some snap => rfl
      | none =>
        rw [if_neg (by omega), if_neg (by omega)]
    | succ fuel ih =>
      intro j hfu
      conv_lhs => rw [checkPathExists]
      conv_rhs => rw [checkPathExists]
      rw [← h j]
      cases hv : fsAt j (DEFAULT_FILE_CACHE_PATH cwd) with
      | some snap => rfl
      | none =>
        by_cases hlt : j < maxNumOfRetries
        · rw [if_pos hlt, if_pos hlt]
          exact ih (j + 1) (by omega)
        · rw [if_neg hlt, if_neg hlt]
  intro j
  exact key (maxNumOfRetries - j) j le_rfl

/-! ## Claim C7 — consumer read with bounded retry -/

/-- C7 (confirmed). The consumer read checks for the cache file and,
while absent, waits `retryDelay = 500` ms and retries, up to
`maxNumOfRetries = 10` retries (5000 ms of waiting in total); if the
file is absent at the initial check and all ten retries it fails with
the error naming the default cache path and the retry count, and as
soon as a check finds the file it returns its parsed JSON content. -/
theorem getData_retry_spec (cwd : String) (fsAt gsAt : FsTimeline) (snap : Snapshot)
    (m : Nat) (hm : m ≤ maxNumOfRetries)
    (habs : ∀ n, n ≤ maxNumOfRetries → fsAt n (DEFAULT_FILE_CACHE_PATH cwd) = none)
    (hfound : gsAt m (DEFAULT_FILE_CACHE_PATH cwd) = some snap)
    (hpre : ∀ k, k < m → gsAt k (DEFAULT_FILE_CACHE_PATH cwd) = none) :
    retryDelay = 500 ∧ maxNumOfRetries = 10 ∧
    maxNumOfRetries * retryDelay = 5000 ∧
    getData cwd fsAt = Except.error ⟨DEFAULT_FILE_CACHE_PATH cwd, maxNumOfRetries⟩ ∧
    getData cwd gsAt = Except.ok snap := by
  refine ⟨rfl, rfl, rfl, ?_, ?_⟩
  · rw [getData]
    exact checkPathExists_absent cwd fsAt habs 0 (by omega)
  · rw [getData]
    exact checkPathExists_found cwd gsAt snap m hm hfound hpre 0 (by omega)

/-- Witness for C7: a file system where the file never appears fails
after ten retries naming the path; one where the file appears at the
third check succeeds with its content. -/
theorem getData_retry_spec_witness :
    getData "" (fun _ _ => none) =
      Except.error ⟨DEFAULT_FILE_CACHE_PATH "", maxNumOfRetries⟩ ∧
    getData "" (fun n _ => if n = 2 then some ⟨[], []⟩ else none) =
      Except.ok ⟨[], []⟩ := by
  have t := getData_retry_spec "" (fun _ _ => none)
    (fun n _ => if n = 2 then some (⟨[], []⟩ : Snapshot) else none) ⟨[], []⟩ 2
    (by norm_num [maxNumOfRetries])
    (fun n _ => rfl)
    (by norm_num)
    (fun k hk => by
      have hk2 : ¬(k = 2) := by omega
      simp [hk2])
  exact ⟨t.2.2.2.1, t.2.2.2.2⟩

/-! ## Claim C8 — static paths -/

/-- C8 (confirmed). `getStaticPaths` returns exactly the `path` values
of the snapshot's pages, in order: the length equals the number of page
entries and the i-th returned value is the i-th page's `path`, so
duplicates are preserved. -/
theorem getStaticPaths_spec (cwd : String) (fsAt : FsTimeline) (snap : Snapshot)
    (h : getData cwd fsAt = Except.ok snap) :
    getStaticPaths cwd fsAt =
      Except.ok (snap.pages.map (fun page => jgetKey page "path")) ∧
    ∀ paths, getStaticPaths cwd fsAt = Except.ok paths →
      paths.length = snap.pages.length ∧
      ∀ i : Nat, paths[i]? = (snap.pages[i]?).map (fun page => jgetKey page "path") := by
  have h1 : getStaticPaths cwd fsAt =
      Except.ok (snap.pages.map (fun page => jgetKey page "path")) := by
    rw [getStaticPaths, h]
  refine ⟨h1, ?_⟩
  intro paths hp
  rw [h1] at hp
  have hpaths : paths = snap.pages.map (fun page => jgetKey page "path") := by
    simpa using hp.symm
  subst hpaths
  exact ⟨by simp, fun i => by simp⟩

/-- Witness for C8: a snapshot with two pages sharing the same path
yields both paths, undeduplicated. -/
theorem getStaticPaths_spec_witness :
    getStaticPaths ""
      (fun _ _ => some ⟨[], [JVal.obj [("path", JVal.str "/a")],
        JVal.obj [("path", JVal.str "/a")]]⟩) =
      Except.ok [JVal.str "/a", JVal.str "/a"] := by
  have hget : getData ""
      (fun _ _ => some ⟨[], [JVal.obj [("path", JVal.str "/a")],
        JVal.obj [("path", JVal.str "/a")]]⟩) =
      Except.ok ⟨[], [JVal.obj [("path", JVal.str "/a")],
        JVal.obj [("path", JVal.str "/a")]]⟩ := by
    rw [getData]
    exact checkPathExists_found _ _ _ 0 (by omega) rfl
      (fun k hk => absurd hk (by omega)) 0 le_rfl
  have t := (getStaticPaths_spec _ _ _ hget).1
  rw [t]
  rfl

/-! ## Claim C10 — the consumer ignores cacheFilePath -/

/-- C10 (confirmed). The consumer read is hard-wired to the default
cache path: it depends on the file system only through the content at
`DEFAULT_FILE_CACHE_PATH`, while the producer writes to the configured
`cacheFilePath`; with a non-default configured path the write leaves
the default path untouched, so a consumer polling a file system that
only ever received such writes fails with the cache-not-found error
and never observes the written snapshot. -/
theorem getData_ignores_cacheFilePath (cwd : String) (options : Options)
    (snap : Snapshot) (fs : FS) (p : String)
    (hp : options.cacheFilePath = some p)
    (hne : p ≠ DEFAULT_FILE_CACHE_PATH cwd) :
    configuredCacheFilePath cwd options = p ∧
    transformWrite cwd options snap fs (configuredCacheFilePath cwd options) =
      some snap ∧
    transformWrite cwd options snap fs (DEFAULT_FILE_CACHE_PATH cwd) =
      fs (DEFAULT_FILE_CACHE_PATH cwd) ∧
    (∀ fsAt gsAt : FsTimeline,
      (∀ n, fsAt n (DEFAULT_FILE_CACHE_PATH cwd) =
        gsAt n (DEFAULT_FILE_CACHE_PATH cwd)) →
      getData cwd fsAt = getData cwd gsAt) ∧
    getData cwd (fun _ => transformWrite cwd options snap (fun _ => none)) =
      Except.error ⟨DEFAULT_FILE_CACHE_PATH cwd, maxNumOfRetries⟩ := by
  have hconf : configuredCacheFilePath cwd options = p := by
    rw [configuredCacheFilePath, hp]
    rfl
  refine ⟨hconf, ?_, ?_, ?_, ?_⟩
  · simp [transformWrite]
  · simp only [transformWrite, hconf]
    rw [if_neg (fun hh => hne hh.symm)]
  · intro fsAt gsAt h
    rw [getData, getData]
    exact checkPathExists_congr cwd fsAt gsAt h 0
  · rw [getData]
    refine checkPathExists_absent cwd _ (fun n _ => ?_) 0 (by omega)
    simp only [transformWrite, hconf]
    rw [if_neg (fun hh => hne hh.symm)]

/-- Witness for C10: with `cacheFilePath = "/tmp/custom.json"` the
producer writes there, but the consumer still reads the default path
and times out on a file system holding only that write. -/
theorem getData_ignores_cacheFilePath_witness :
    configuredCacheFilePath "" ⟨some "/tmp/custom.json"⟩ = "/tmp/custom.json" ∧
    getData ""
      (fun _ => transformWrite "" ⟨some "/tmp/custom.json"⟩ ⟨[], []⟩
        (fun _ => none)) =
      Except.error ⟨DEFAULT_FILE_CACHE_PATH "", maxNumOfRetries⟩ := by
  have t := getData_ignores_cacheFilePath "" ⟨some "/tmp/custom.json"⟩ ⟨[], []⟩
    (fun _ => none) "/tmp/custom.json" rfl (by decide)
  exact ⟨t.1, t.2.2.2.2⟩

/-! ## Claim C9 — the notifier and closed connections -/

/-- C9 (amended). Closing a connection does not drop its subscription:
the close handler only logs, so the listener registered at connection
time stays on the emitter and a subsequent broadcast emits the wake
token once per subscription ever registered — including connections no
longer open. Each connection that subscribed once (one `connection`
event) receives the token exactly once per broadcast, and every
broadcast message is the wake token addressed to a subscriber. -/
theorem notifier_spec (s : NotifierState) (c : Nat) :
    (onClose s c).1.subscribers = s.subscribers ∧
    (onClose s c).2 = [] ∧
    (onClose s c).1.openConns = s.openConns.erase c ∧
    (onConnection s c).2 = [(c, "hello")] ∧
    (onConnection s c).1.subscribers = s.subscribers ++ [c] ∧
    (∀ d : Nat, (broadcastLiveUpdate s).countP (fun msg => msg.1 == d) =
      s.subscribers.count d) ∧
    ∀ msg ∈ broadcastLiveUpdate s,
      msg.2 = LIVE_UPDATE_EVENT_NAME ∧ msg.1 ∈ s.subscribers := by
  refine ⟨rfl, rfl, rfl, rfl, rfl, ?_, ?_⟩
  · intro d
    rw [broadcastLiveUpdate, List.countP_map, List.count_eq_countP]
    rfl
  · intro msg hmsg
    rw [broadcastLiveUpdate] at hmsg
    obtain ⟨d, hd, hdm⟩ := List.mem_map.mp hmsg
    subst hdm
    exact ⟨rfl, hd⟩

/-- Witness for C9 (amended): with one subscribed connection, closing
keeps the subscription, and a broadcast delivers the wake token to it
exactly once. -/
theorem notifier_spec_witness :
    (onClose ⟨[0], [0]⟩ 0).1.subscribers = [0] ∧
    (broadcastLiveUpdate ⟨[0], []⟩).countP (fun msg => msg.1 == 0) = 1 := by
  have t := notifier_spec ⟨[0], [0]⟩ 0
  have t2 := notifier_spec ⟨[0], []⟩ 0
  refine ⟨t.1, ?_⟩
  rw [t2.2.2.2.2.2.1 0]
  rfl

/-- C9 as frozen is false: after a connection closes, its subscription
remains, and a broadcast still sends the wake token to the closed —
no longer connected — connection. -/
theorem notifier_close_counterexample :
    (onClose (onConnection ⟨[], []⟩ 0).1 0).1.openConns = [] ∧
    broadcastLiveUpdate (onClose (onConnection ⟨[], []⟩ 0).1 0).1 =
      [(0, "props_changed")] ∧
    (0 : Nat) ∉ (onClose (onConnection ⟨[], []⟩ 0).1 0).1.openConns := by
  refine ⟨rfl, rfl, ?_⟩
  intro h
  rw [show (onClose (onConnection ⟨[], []⟩ 0).1 0).1.openConns = ([] : List Nat)
    from rfl] at h
  exact absurd h (List.not_mem_nil 0)

end Sourcebit
